import Mathlib

/-!
A shallow embedding of the `disklru` cache engine (`src/disklru/disklru.py`)
with proofs about its operations.

The Python implementation stores entries in a SQLite table
`cache(key TEXT PRIMARY KEY, timestamp INTEGER, value BLOB)` plus a single
integer counter row `metadata('size')`.  We model the table as a list of
entries in rowid order (SQLite's `INSERT OR REPLACE` deletes the conflicting
row and appends a fresh one, so a replaced row moves to the end of the list;
a plain `UPDATE` keeps the row in place) and the counter as an integer.
Wall-clock timestamps (`int(datetime.now(timezone.utc).timestamp())`) are
passed in as an explicit integer argument `now`.

Python's dynamic typing matters for the claims about `isinstance` checks, so
operation arguments are values of an inductive `PyVal` covering the
SQLite-bindable Python types used by the code, and fallible operations return
`Except PyErr`.
-/

/-- The Python exceptions the modelled code paths can raise. -/
inductive PyErr where
  /-- `TypeError`, raised by the explicit `isinstance` guards
  (and by `None[0]` subscripting). -/
  | typeError (msg : String)
  /-- `UnicodeDecodeError`, raised by `bytes.decode("utf-8")` on invalid UTF-8. -/
  | unicodeDecodeError
  /-- `AttributeError`, e.g. calling `.encode` on a `bytes` object. -/
  | attributeError (msg : String)
  deriving Repr, DecidableEq

/-- Python values of the SQLite-bindable types that can reach the cache API. -/
inductive PyVal where
  | str (s : String)
  | bytes (b : List Nat)
  | int (n : Int)
  | pyNone
  deriving Repr, DecidableEq

/-- `type(x).__name__` for the modelled Python values. -/
def PyVal.typeName : PyVal → String
  | .str _ => "str"
  | .bytes _ => "bytes"
  | .int _ => "int"
  | .pyNone => "NoneType"

/-- `isinstance(x, str)`. -/
def PyVal.isStr : PyVal → Bool
  | .str _ => true
  | _ => false

/-! ## UTF-8 codec

`put` stores `value.encode("utf-8")` and `get` returns
`stored.decode("utf-8")`.  We model byte strings as `List Nat` and implement
the codec at the value level.
-/

/-- UTF-8 encoding of a single Unicode scalar value, as in
`str.encode("utf-8")`. -/
def utf8EncodeChar (n : Nat) : List Nat :=
  if n < 0x80 then [n]
  else if n < 0x800 then [0xC0 + n / 0x40, 0x80 + n % 0x40]
  else if n < 0x10000 then
    [0xE0 + n / 0x1000, 0x80 + n / 0x40 % 0x40, 0x80 + n % 0x40]
  else
    [0xF0 + n / 0x40000, 0x80 + n / 0x1000 % 0x40, 0x80 + n / 0x40 % 0x40,
      0x80 + n % 0x40]

/-- UTF-8 encoding of a character sequence. -/
def utf8EncodeList : List Char → List Nat
  | [] => []
  | c :: cs => utf8EncodeChar c.toNat ++ utf8EncodeList cs

/-- `s.encode("utf-8")` on a Python `str`. -/
def utf8Encode (s : String) : List Nat :=
  utf8EncodeList s.data

/-- Is `b` a UTF-8 continuation byte (`0x80..0xBF`)? -/
def utf8IsCont (b : Nat) : Bool :=
  0x80 ≤ b && b < 0xC0

/-- Strict decoding of one UTF-8 scalar value from the front of a byte list,
returning the code point and the remaining bytes.  Mirrors the strictness of
Python's `bytes.decode("utf-8")`: continuation bytes as starters, overlong
forms, surrogates and out-of-range values are rejected. -/
def utf8DecodeChar : List Nat → Option (Nat × List Nat)
  | [] => none
  | b0 :: rest =>
    if b0 < 0x80 then some (b0, rest)
    else if b0 < 0xC0 then none
    else if b0 < 0xE0 then
      match rest with
      | b1 :: rest1 =>
        if utf8IsCont b1 then
          let n := (b0 - 0xC0) * 0x40 + (b1 - 0x80)
          if 0x80 ≤ n then some (n, rest1) else none
        else none
      | [] => none
    else if b0 < 0xF0 then
      match rest with
      | b1 :: b2 :: rest2 =>
        if utf8IsCont b1 && utf8IsCont b2 then
          let n := (b0 - 0xE0) * 0x1000 + (b1 - 0x80) * 0x40 + (b2 - 0x80)
          if 0x800 ≤ n ∧ ¬(0xD800 ≤ n ∧ n ≤ 0xDFFF) then some (n, rest2)
          else none
        else none
      | _ => none
    else if b0 < 0xF8 then
      match rest with
      | b1 :: b2 :: b3 :: rest3 =>
        if utf8IsCont b1 && utf8IsCont b2 && utf8IsCont b3 then
          let n := (b0 - 0xF0) * 0x40000 + (b1 - 0x80) * 0x1000 +
            (b2 - 0x80) * 0x40 + (b3 - 0x80)
          if 0x10000 ≤ n ∧ n < 0x110000 then some (n, rest3) else none
        else none
      | _ => none
    else none

/-- Fuelled decoding loop; one unit of fuel per decoded character.  Since
every character consumes at least one byte, fuel `bs.length` suffices. -/
def utf8DecodeLoop : Nat → List Nat → Option (List Char)
  | _, [] => some []
  | 0, _ :: _ => none
  | fuel + 1, b :: bs =>
    match utf8DecodeChar (b :: bs) with
    | none => none
    | some (n, rest) =>
      match utf8DecodeLoop fuel rest with
      | none => none
      | some cs => some (Char.ofNat n :: cs)

/-- `bs.decode("utf-8")` on a Python `bytes`: `none` models
`UnicodeDecodeError`. -/
def utf8Decode (bs : List Nat) : Option String :=
  (utf8DecodeLoop bs.length bs).map fun cs => { data := cs }

/-! ## Cache state -/

/-- One row of the `cache` table:
`key TEXT PRIMARY KEY, timestamp INTEGER, value BLOB`. -/
structure Entry where
  key : String
  timestamp : Int
  value : List Nat
  deriving Repr, DecidableEq

/-- The persistent state: the `cache` table rows in rowid order and the
`metadata('size')` counter. -/
structure CacheState where
  entries : List Entry
  size : Int
  deriving Repr, DecidableEq

/-- `SELECT ... FROM cache WHERE key=?` with a TEXT parameter: returns the
(unique, by the primary key) matching row, modelled as the first match. -/
def lookupEntry (es : List Entry) (k : String) : Option Entry :=
  es.find? fun e => e.key == k

/-- The state produced by the schema initializer on a fresh database:
an empty `cache` table and `INSERT OR IGNORE INTO metadata VALUES ('size', 0)`. -/
def emptyCache : CacheState :=
  { entries := [], size := 0 }

namespace DiskLRUCache

/-- `SELECT key FROM cache ORDER BY timestamp ASC LIMIT 1`: the first row (in
rowid order, SQLite's tie order on the timestamp index) with minimal
timestamp. -/
def minTimestampEntry : List Entry → Option Entry
  | [] => none
  | e :: es =>
    match minTimestampEntry es with
    | none => some e
    | some m => if m.timestamp < e.timestamp then some m else some e

/-- `DiskLRUCache.get_bytes`: `isinstance` guard, `SELECT value`, and on a hit
`UPDATE cache SET timestamp=? WHERE key=?` (the pre-update value was already
fetched). -/
def get_bytes (key : PyVal) (now : Int) (s : CacheState) :
    Except PyErr (Option (List Nat) × CacheState) :=
  match key with
  | .str k =>
    match lookupEntry s.entries k with
    | some e =>
      .ok (some e.value,
        { s with entries := s.entries.map fun e' =>
            if e'.key = k then { e' with timestamp := now } else e' })
    | none => .ok (none, s)
  | _ => .error (.typeError ("key must be str, not " ++ key.typeName))

/-- `DiskLRUCache.get`: `isinstance` guard, then `get_bytes` and
`result.decode("utf-8")` on a hit. -/
def get (key : PyVal) (now : Int) (s : CacheState) :
    Except PyErr (Option String × CacheState) :=
  match key with
  | .str _ =>
    match get_bytes key now s with
    | .error e => .error e
    | .ok (some bs, s') =>
      match utf8Decode bs with
      | some v => .ok (some v, s')
      | none => .error .unicodeDecodeError
    | .ok (none, s') => .ok (none, s')
  | _ => .error (.typeError ("key must be str, not " ++ key.typeName))

/-- `DiskLRUCache.put_bytes`: type guards; existence check; size read; if the
key is new and `current_size >= max_entries`, delete the
`ORDER BY timestamp ASC LIMIT 1` row and decrement the counter (on an empty
table `cursor.fetchone()[0]` would subscript `None` and raise `TypeError`);
then `INSERT OR REPLACE` the new row (which appends it in rowid order) and
increment the counter if the key was new. -/
def put_bytes (maxEntries : Int) (key value : PyVal) (now : Int)
    (s : CacheState) : Except PyErr CacheState :=
  match key with
  | .str k =>
    match value with
    | .bytes v =>
      let key_exists := (lookupEntry s.entries k).isSome
      let afterEvict : Except PyErr CacheState :=
        if key_exists = false ∧ maxEntries ≤ s.size then
          match minTimestampEntry s.entries with
          | some lru =>
            .ok { entries := s.entries.filter fun e => !(e.key == lru.key),
                  size := s.size - 1 }
          | none =>
            .error (.typeError "'NoneType' object is not subscriptable")
        else .ok s
      match afterEvict with
      | .error e => .error e
      | .ok s1 =>
        .ok { entries := (s1.entries.filter fun e => !(e.key == k)) ++
                [{ key := k, timestamp := now, value := v }],
              size := if key_exists then s1.size else s1.size + 1 }
    | _ => .error (.typeError ("value must be bytes, not " ++ value.typeName))
  | _ => .error (.typeError ("key must be str, not " ++ key.typeName))

/-- `DiskLRUCache.put`: type guards, then `put_bytes(key, value.encode("utf-8"))`. -/
def put (maxEntries : Int) (key value : PyVal) (now : Int) (s : CacheState) :
    Except PyErr CacheState :=
  match key, value with
  | .str _, .str v => put_bytes maxEntries key (.bytes (utf8Encode v)) now s
  | .str _, _ => .error (.typeError ("value must be str, not " ++ value.typeName))
  | _, _ => .error (.typeError ("key must be str, not " ++ key.typeName))

/-- `DiskLRUCache.__contains__`: `isinstance` guard, then a bare
`SELECT 1 FROM cache WHERE key=?` — no timestamp update, no write at all. -/
def contains (key : PyVal) (s : CacheState) :
    Except PyErr (Bool × CacheState) :=
  match key with
  | .str k => .ok ((lookupEntry s.entries k).isSome, s)
  | _ => .error (.typeError ("key must be str, not " ++ key.typeName))

/-- `DiskLRUCache.delete`: no `isinstance` guard.  `SELECT 1 WHERE key=?`
with a non-TEXT parameter never matches a TEXT key column (SQLite storage
classes of different types compare unequal), so a non-`str` key is a no-op.
On a hit, `DELETE WHERE key=?` and decrement the counter. -/
def delete (key : PyVal) (s : CacheState) : Except PyErr CacheState :=
  match key with
  | .str k =>
    if (lookupEntry s.entries k).isSome then
      .ok { entries := s.entries.filter fun e => !(e.key == k),
            size := s.size - 1 }
    else .ok s
  | _ => .ok s

/-- `DiskLRUCache.purge`: count the rows with `timestamp <= cutoff`, delete
them, and (when the count is positive) subtract it from the size counter.
`cutoff` is the integer UTC timestamp the source converts its argument to. -/
def purge (cutoff : Int) (s : CacheState) : CacheState :=
  let toDelete := (s.entries.filter fun e => e.timestamp ≤ cutoff).length
  { entries := s.entries.filter fun e => !(e.timestamp ≤ cutoff : Bool),
    size := if toDelete > 0 then s.size - toDelete else s.size }

/-- `DiskLRUCache.clear`: `DELETE FROM cache` and reset the counter to 0. -/
def clear (_s : CacheState) : CacheState :=
  { entries := [], size := 0 }

/-- `DiskLRUCache.get_size`: returns the `metadata('size')` counter. -/
def get_size (s : CacheState) : Int :=
  s.size

/-- `cursor.arraysize`: a DB-API fetch-size attribute that defaults to `1`
and is never assigned anywhere in the source. -/
def cursorArraysize : Nat := 1

/-- SQLite evaluation, for a stored (non-NULL) `value` column, of the
conditions `value = ?` and `(? IS NULL AND value IS NULL) OR value = ?` used
by `compare_and_swap`: a NULL parameter makes both conditions non-true. -/
def sqlValueEq (p : Option (List Nat)) (v : List Nat) : Bool :=
  match p with
  | none => false
  | some pb => v == pb

/-- `DiskLRUCache.compare_and_swap`: type guards; encode both optional values;
if `new_val is None` run the conditional `DELETE` (decrementing the counter
when a row was deleted); otherwise run
`INSERT ... ON CONFLICT(key) DO UPDATE ... WHERE cache.value = ?`
(an absent key inserts unconditionally; a present key updates in place only
when the stored value equals the encoded `prev_val`), incrementing the
counter only when `rowcount > 0 and prev_val is None`.  Success is then
computed as `cursor.arraysize > 0`, which is always true; the
`if not success` branch (re-select and `bytes.encode`) is dead code. -/
def compare_and_swap (key : PyVal) (prev_val new_val : Option String)
    (now : Int) (s : CacheState) :
    Except PyErr ((Bool × Option String) × CacheState) :=
  match key with
  | .str k =>
    let prev_val_bytes := prev_val.map utf8Encode
    let new_val_bytes := new_val.map utf8Encode
    let step : Nat × CacheState :=
      match new_val_bytes with
      | none =>
        let rowcount := (s.entries.filter fun e =>
          e.key == k && sqlValueEq prev_val_bytes e.value).length
        let entries := s.entries.filter fun e =>
          !(e.key == k && sqlValueEq prev_val_bytes e.value)
        (rowcount,
          { entries := entries,
            size := if rowcount > 0 then s.size - 1 else s.size })
      | some nb =>
        let res : Nat × List Entry :=
          match lookupEntry s.entries k with
          | none => (1, s.entries ++ [{ key := k, timestamp := now, value := nb }])
          | some e =>
            if sqlValueEq prev_val_bytes e.value then
              (1, s.entries.map fun e' =>
                if e'.key = k then { e' with timestamp := now, value := nb }
                else e')
            else (0, s.entries)
        (res.1,
          { entries := res.2,
            size := if res.1 > 0 ∧ prev_val = none then s.size + 1 else s.size })
    if cursorArraysize > 0 then .ok ((true, none), step.2)
    else
      match lookupEntry step.2.entries k with
      | some _ => .error (.attributeError "'bytes' object has no attribute 'encode'")
      | none => .ok ((false, none), step.2)
  | _ => .error (.typeError ("key must be str, not " ++ key.typeName))

end DiskLRUCache

/-! ## The cache object: session pool, `close`, and the operation wrappers

`DiskLRUCache` instances keep a pool `_connections : thread id ↦ (conn,
cursor, last access time)` and a `_closed` flag.  Every public operation
first calls `_get_session()`, which returns the calling thread's pooled
connection or creates a fresh one — without ever consulting `_closed`.
`close()` clears the pool and sets `_closed = True`.  For a file-backed
database the table and counter survive in the file, so we keep a single
persistent `CacheState` in the model. -/

/-- One pooled connection: the owning thread id and its last-access time. -/
structure PooledConn where
  threadId : Nat
  lastAccess : Int
  deriving Repr, DecidableEq

/-- The in-memory state of a `DiskLRUCache` object together with the
persistent state of its backing file. -/
structure DiskLRU where
  maxEntries : Int
  maxConnections : Nat
  closed : Bool
  connections : List PooledConn
  db : CacheState
  deriving Repr, DecidableEq

namespace DiskLRU

/-- `DiskLRUCache.__init__`: fresh object over a fresh database file. -/
def init (maxEntries : Int) (maxConnections : Nat) : DiskLRU :=
  { maxEntries := maxEntries, maxConnections := maxConnections,
    closed := false, connections := [], db := emptyCache }

/-- Stable insertion into a list sorted by descending last-access time
(models Python's stable `sorted(..., reverse=True)`). -/
def insertByAccessDesc (c : PooledConn) : List PooledConn → List PooledConn
  | [] => [c]
  | d :: ds =>
    if d.lastAccess < c.lastAccess then c :: d :: ds
    else d :: insertByAccessDesc c ds

/-- `sorted(self._connections.items(), key=lambda x: x[1][2], reverse=True)`. -/
def sortByAccessDesc : List PooledConn → List PooledConn
  | [] => []
  | c :: cs => insertByAccessDesc c (sortByAccessDesc cs)

/-- `DiskLRUCache._get_session`: reuse and touch the calling thread's pooled
connection if it exists; otherwise, when the pool is at capacity, drop every
connection not among the `max_connections - 1` most recently used, then
create (and pool) a fresh connection.  The `_closed` flag is never read. -/
def getSession (tid : Nat) (now : Int) (l : DiskLRU) : DiskLRU :=
  match l.connections.find? fun c => c.threadId == tid with
  | some _ =>
    { l with connections := l.connections.map fun c =>
        if c.threadId = tid then { c with lastAccess := now } else c }
  | none =>
    let conns :=
      if l.maxConnections ≤ l.connections.length then
        let oldest := (sortByAccessDesc l.connections).drop (l.maxConnections - 1)
        l.connections.filter fun c =>
          (oldest.find? fun o => o.threadId == c.threadId).isNone
      else l.connections
    { l with connections := conns ++ [{ threadId := tid, lastAccess := now }] }

/-- `DiskLRUCache.close`: clear the pool and set `_closed = True`. -/
def close (l : DiskLRU) : DiskLRU :=
  { l with connections := [], closed := true }

/-- `DiskLRUCache.get` at the object level: acquire a session, then run the
engine operation. -/
def get (tid : Nat) (key : PyVal) (now : Int) (l : DiskLRU) :
    Except PyErr (Option String × DiskLRU) :=
  let l' := l.getSession tid now
  match DiskLRUCache.get key now l'.db with
  | .ok (r, db') => .ok (r, { l' with db := db' })
  | .error e => .error e

/-- `DiskLRUCache.put` at the object level. -/
def put (tid : Nat) (key value : PyVal) (now : Int) (l : DiskLRU) :
    Except PyErr DiskLRU :=
  let l' := l.getSession tid now
  match DiskLRUCache.put l'.maxEntries key value now l'.db with
  | .ok db' => .ok { l' with db := db' }
  | .error e => .error e

/-- `DiskLRUCache.get_size` at the object level. -/
def get_size (tid : Nat) (now : Int) (l : DiskLRU) : Int × DiskLRU :=
  let l' := l.getSession tid now
  (DiskLRUCache.get_size l'.db, l')

end DiskLRU

/-- Run a sequence of `put_bytes` calls (key, value, timestamp) from a single
context, stopping at the first error. -/
def runPuts (maxEntries : Int) : List (String × List Nat × Int) → CacheState →
    Except PyErr CacheState
  | [], s => .ok s
  | (k, v, t) :: rest, s =>
    match DiskLRUCache.put_bytes maxEntries (.str k) (.bytes v) t s with
    | .ok s' => runPuts maxEntries rest s'
    | .error e => .error e

/-- `SizeCounter == COUNT(Entry)` together with the `cache` table's
`key TEXT PRIMARY KEY` uniqueness — the state well-formedness the schema
guarantees. -/
def WF (s : CacheState) : Prop :=
  s.size = s.entries.length ∧ (s.entries.map Entry.key).Nodup

/-! ## Proofs -/

section Utf8RoundTrip

set_option maxRecDepth 4000 in
theorem utf8DecodeChar_encode (n : Nat)
    (h : n < 0xD800 ∨ (0xDFFF < n ∧ n < 0x110000)) (tail : List Nat) :
    utf8DecodeChar (utf8EncodeChar n ++ tail) = some (n, tail) := by
  have hn : n < 0x110000 := by omega
  by_cases h1 : n < 0x80
  · rw [utf8EncodeChar, if_pos h1]
    simp only [List.cons_append, List.nil_append, utf8DecodeChar]
    rw [if_pos h1]
  · by_cases h2 : n < 0x800
    · rw [utf8EncodeChar, if_neg h1, if_pos h2]
      simp only [List.cons_append, List.nil_append, utf8DecodeChar]
      rw [if_neg (by omega), if_neg (by omega), if_pos (by omega)]
      have hc : utf8IsCont (0x80 + n % 0x40) = true := by
        simp only [utf8IsCont, Bool.and_eq_true, decide_eq_true_eq]
        omega
      rw [hc]
      simp only [if_pos]
      rw [if_pos (by omega)]
      congr 2
      omega
    · by_cases h3 : n < 0x10000
      · rw [utf8EncodeChar, if_neg h1, if_neg h2, if_pos h3]
        simp only [List.cons_append, List.nil_append, utf8DecodeChar]
        rw [if_neg (by omega), if_neg (by omega), if_neg (by omega),
          if_pos (by omega)]
        have hc1 : utf8IsCont (0x80 + n / 0x40 % 0x40) = true := by
          simp only [utf8IsCont, Bool.and_eq_true, decide_eq_true_eq]
          omega
        have hc2 : utf8IsCont (0x80 + n % 0x40) = true := by
          simp only [utf8IsCont, Bool.and_eq_true, decide_eq_true_eq]
          omega
        rw [hc1, hc2]
        simp only [Bool.and_self, if_pos]
        rw [if_pos (by omega)]
        congr 2
        omega
      · rw [utf8EncodeChar, if_neg h1, if_neg h2, if_neg h3]
        simp only [List.cons_append, List.nil_append, utf8DecodeChar]
        rw [if_neg (by omega), if_neg (by omega), if_neg (by omega),
          if_neg (by omega), if_pos (by omega)]
        have hc1 : utf8IsCont (0x80 + n / 0x1000 % 0x40) = true := by
          simp only [utf8IsCont, Bool.and_eq_true, decide_eq_true_eq]
          omega
        have hc2 : utf8IsCont (0x80 + n / 0x40 % 0x40) = true := by
          simp only [utf8IsCont, Bool.and_eq_true, decide_eq_true_eq]
          omega
        have hc3 : utf8IsCont (0x80 + n % 0x40) = true := by
          simp only [utf8IsCont, Bool.and_eq_true, decide_eq_true_eq]
          omega
        rw [hc1, hc2, hc3]
        simp only [Bool.and_self, if_pos]
        rw [if_pos (by omega)]
        congr 2
        omega

theorem utf8EncodeChar_ne_nil (n : Nat) : utf8EncodeChar n ≠ [] := by
  rw [utf8EncodeChar]
  split
  · simp
  · split
    · simp
    · split <;> simp

theorem length_le_utf8EncodeList (cs : List Char) :
    cs.length ≤ (utf8EncodeList cs).length := by
  induction cs with
  | nil => simp [utf8EncodeList]
  | cons c cs ih =>
    have h1 : utf8EncodeChar c.toNat ≠ [] := utf8EncodeChar_ne_nil _
    have h2 : 1 ≤ (utf8EncodeChar c.toNat).length := by
      cases h : utf8EncodeChar c.toNat with
      | nil => exact absurd h h1
      | cons _ _ => simp
    simp only [utf8EncodeList, List.length_append, List.length_cons]
    omega

theorem char_toNat_valid (c : Char) :
    c.toNat < 0xD800 ∨ (0xDFFF < c.toNat ∧ c.toNat < 0x110000) := by
  rcases c.valid with h | ⟨h1, h2⟩
  · exact Or.inl (UInt32.toNat_lt_of_lt (by decide) h)
  · exact Or.inr ⟨UInt32.lt_toNat_of_lt (by decide) h1,
      UInt32.toNat_lt_of_lt (by decide) h2⟩

theorem utf8DecodeLoop_encodeList (cs : List Char) : ∀ fuel, cs.length ≤ fuel →
    utf8DecodeLoop fuel (utf8EncodeList cs) = some cs := by
  induction cs with
  | nil => intro fuel _; cases fuel <;> simp [utf8EncodeList, utf8DecodeLoop]
  | cons c cs ih =>
    intro fuel hf
    obtain ⟨f, rfl⟩ : ∃ f, fuel = f + 1 := ⟨fuel - 1, by simp at hf; omega⟩
    obtain ⟨b, bs, hbs⟩ :
        ∃ b bs, utf8EncodeChar c.toNat ++ utf8EncodeList cs = b :: bs := by
      cases hEnc : utf8EncodeChar c.toNat with
      | nil => exact absurd hEnc (utf8EncodeChar_ne_nil _)
      | cons b bs' => exact ⟨b, bs' ++ utf8EncodeList cs, by simp⟩
    rw [utf8EncodeList, hbs, utf8DecodeLoop, ← hbs,
      utf8DecodeChar_encode c.toNat (char_toNat_valid c)]
    simp only [ih f (by simp at hf; omega), Char.ofNat_toNat]

/-- `v.encode("utf-8").decode("utf-8") == v`: the byte codec round trip. -/
theorem utf8Decode_encode (s : String) : utf8Decode (utf8Encode s) = some s := by
  unfold utf8Decode utf8Encode
  rw [utf8DecodeLoop_encodeList s.data _ (length_le_utf8EncodeList s.data)]
  cases s
  rfl

end Utf8RoundTrip

theorem lookupEntry_filter_self (l : List Entry) (k : String) :
    lookupEntry (l.filter fun e => !(e.key == k)) k = none := by
  apply List.find?_eq_none.mpr
  intro e he
  have h := (List.mem_filter.mp he).2
  simp only [Bool.not_eq_true'] at h
  simp [h]

theorem lookupEntry_append_new (l : List Entry) (a : Entry) (k : String)
    (hk : a.key = k) (hl : lookupEntry l k = none) :
    lookupEntry (l ++ [a]) k = some a := by
  unfold lookupEntry at *
  rw [List.find?_append, hl]
  simp [hk]

theorem filter_eq_self_of_lookup_none (l : List Entry) (k : String)
    (h : lookupEntry l k = none) : (l.filter fun e => !(e.key == k)) = l := by
  apply List.filter_eq_self.mpr
  intro e he
  have := List.find?_eq_none.mp h e he
  simpa using this

theorem nodup_keys_filter (l : List Entry) (p : Entry → Bool)
    (h : (l.map Entry.key).Nodup) : ((l.filter p).map Entry.key).Nodup :=
  List.Nodup.sublist (List.Sublist.map Entry.key (List.filter_sublist l)) h

theorem not_mem_keys_filter (l : List Entry) (k : String) :
    k ∉ (l.filter fun e => !(e.key == k)).map Entry.key := by
  intro hmem
  obtain ⟨e, he, hkey⟩ := List.mem_map.mp hmem
  have h := (List.mem_filter.mp he).2
  simp only [Bool.not_eq_true'] at h
  exact absurd hkey (by simpa using h)

theorem nodup_keys_filter_append (l : List Entry) (k : String) (ts : Int)
    (v : List Nat) (h : (l.map Entry.key).Nodup) :
    (((l.filter fun e => !(e.key == k)) ++
        [({ key := k, timestamp := ts, value := v } : Entry)]).map Entry.key).Nodup := by
  rw [List.map_append, List.nodup_append_comm]
  simp only [List.map_cons, List.map_nil, List.nil_append, List.singleton_append,
    List.nodup_cons]
  exact ⟨not_mem_keys_filter l k, nodup_keys_filter l _ h⟩

theorem length_filter_key_of_mem (l : List Entry) (m : Entry)
    (hm : m ∈ l) (hnd : (l.map Entry.key).Nodup) :
    (l.filter fun e => !(e.key == m.key)).length + 1 = l.length := by
  induction l with
  | nil => cases hm
  | cons e l ih =>
    simp only [List.map_cons, List.nodup_cons] at hnd
    obtain ⟨hek, hnd'⟩ := hnd
    rcases List.mem_cons.mp hm with rfl | hm'
    · have hrest : (l.filter fun x => !(x.key == m.key)) = l := by
        apply List.filter_eq_self.mpr
        intro x hx
        have hne : x.key ≠ m.key := by
          intro hc
          exact hek (hc ▸ List.mem_map_of_mem Entry.key hx)
        simp [hne]
      simp [List.filter_cons, hrest]
    · have hne : e.key ≠ m.key := by
        intro hc
        exact hek (hc ▸ List.mem_map_of_mem Entry.key hm')
      have hb : (e.key == m.key) = false := by simpa using hne
      have hstep := ih hm' hnd'
      simp only [List.filter_cons, hb, Bool.not_false, if_true, List.length_cons]
      omega

theorem minTimestampEntry_spec (l : List Entry) (hl : l ≠ []) :
    ∃ m, DiskLRUCache.minTimestampEntry l = some m ∧ m ∈ l ∧
      ∀ e ∈ l, m.timestamp ≤ e.timestamp := by
  induction l with
  | nil => exact absurd rfl hl
  | cons a l ih =>
    by_cases hl0 : l = []
    · subst hl0
      refine ⟨a, by simp [DiskLRUCache.minTimestampEntry], by simp, by simp⟩
    · obtain ⟨m, hm, hmem, hmin⟩ := ih hl0
      by_cases hlt : m.timestamp < a.timestamp
      · refine ⟨m, ?_, List.mem_cons_of_mem _ hmem, ?_⟩
        · simp [DiskLRUCache.minTimestampEntry, hm, hlt]
        · intro e he
          rcases List.mem_cons.mp he with rfl | he'
          · exact le_of_lt hlt
          · exact hmin e he'
      · refine ⟨a, ?_, List.mem_cons_self a l, ?_⟩
        · simp [DiskLRUCache.minTimestampEntry, hm, hlt]
        · intro e he
          rcases List.mem_cons.mp he with rfl | he'
          · exact le_refl _
          · exact le_trans (by omega) (hmin e he')

theorem put_bytes_eq_of_key_exists (maxE : Int) (k : String) (v : List Nat)
    (now : Int) (s : CacheState)
    (hk : (lookupEntry s.entries k).isSome = true) :
    DiskLRUCache.put_bytes maxE (.str k) (.bytes v) now s =
      .ok { entries := (s.entries.filter fun e => !(e.key == k)) ++
              [{ key := k, timestamp := now, value := v }],
            size := s.size } := by
  simp only [DiskLRUCache.put_bytes]
  rw [if_neg (by simp [hk])]
  simp [hk]

theorem put_bytes_eq_of_new_no_evict (maxE : Int) (k : String) (v : List Nat)
    (now : Int) (s : CacheState)
    (hk : lookupEntry s.entries k = none) (hsz : ¬ maxE ≤ s.size) :
    DiskLRUCache.put_bytes maxE (.str k) (.bytes v) now s =
      .ok { entries := s.entries ++ [{ key := k, timestamp := now, value := v }],
            size := s.size + 1 } := by
  simp only [DiskLRUCache.put_bytes]
  rw [if_neg (by simp [hk, hsz])]
  simp [hk, filter_eq_self_of_lookup_none s.entries k hk]

theorem put_bytes_eq_of_new_evict (maxE : Int) (k : String) (v : List Nat)
    (now : Int) (s : CacheState)
    (hk : lookupEntry s.entries k = none) (hsz : maxE ≤ s.size)
    (hne : s.entries ≠ []) :
    ∃ lru, DiskLRUCache.minTimestampEntry s.entries = some lru ∧
      lru ∈ s.entries ∧ (∀ e ∈ s.entries, lru.timestamp ≤ e.timestamp) ∧
      DiskLRUCache.put_bytes maxE (.str k) (.bytes v) now s =
        .ok { entries := (s.entries.filter fun e => !(e.key == lru.key)) ++
                [{ key := k, timestamp := now, value := v }],
              size := s.size } := by
  obtain ⟨lru, hlru, hmem, hmin⟩ := minTimestampEntry_spec s.entries hne
  refine ⟨lru, hlru, hmem, hmin, ?_⟩
  have hfk : lookupEntry (s.entries.filter fun e => !(e.key == lru.key)) k = none := by
    apply List.find?_eq_none.mpr
    intro e he
    have he' := (List.mem_filter.mp he).1
    have := List.find?_eq_none.mp hk e he'
    simpa using this
  simp only [DiskLRUCache.put_bytes]
  rw [if_pos (by simp [hk, hsz])]
  rw [hlru]
  simp only [hk, Option.isSome_none, Bool.false_eq_true, if_false]
  rw [filter_eq_self_of_lookup_none _ k hfk]
  simp only [Except.ok.injEq, CacheState.mk.injEq]
  exact ⟨trivial, by omega⟩

theorem not_mem_keys_of_lookup_none (l : List Entry) (k : String)
    (h : lookupEntry l k = none) : k ∉ l.map Entry.key := by
  intro hmem
  obtain ⟨e, he, hkey⟩ := List.mem_map.mp hmem
  have := List.find?_eq_none.mp h e he
  simp [hkey] at this

theorem nodup_keys_append_new (l : List Entry) (k : String) (ts : Int)
    (v : List Nat) (hnd : (l.map Entry.key).Nodup)
    (hk : k ∉ l.map Entry.key) :
    ((l ++ [({ key := k, timestamp := ts, value := v } : Entry)]).map
      Entry.key).Nodup := by
  rw [List.map_append, List.nodup_append_comm]
  simp only [List.map_cons, List.map_nil, List.singleton_append,
    List.nodup_cons]
  exact ⟨hk, hnd⟩

theorem put_bytes_WF (maxE : Int) (k : String) (v : List Nat) (now : Int)
    (s : CacheState) (hWF : WF s) (hle : s.size ≤ maxE) (hmax : 0 < maxE) :
    ∃ s', DiskLRUCache.put_bytes maxE (.str k) (.bytes v) now s = .ok s' ∧
      WF s' ∧ s'.size ≤ maxE := by
  obtain ⟨hsize, hnd⟩ := hWF
  by_cases hk : (lookupEntry s.entries k).isSome = true
  · refine ⟨_, put_bytes_eq_of_key_exists maxE k v now s hk, ⟨?_, ?_⟩, hle⟩
    · obtain ⟨e, he⟩ := Option.isSome_iff_exists.mp hk
      have hmem := List.mem_of_find?_eq_some he
      have hek : e.key = k := by simpa using List.find?_some he
      have hlen := length_filter_key_of_mem s.entries e hmem hnd
      rw [hek] at hlen
      simp only [List.length_append, List.length_cons, List.length_nil]
      omega
    · exact nodup_keys_filter_append s.entries k now v hnd
  · have hk' : lookupEntry s.entries k = none := by
      cases h : lookupEntry s.entries k
      · rfl
      · exact absurd (by simp [h]) hk
    have hknot := not_mem_keys_of_lookup_none s.entries k hk'
    by_cases hsz : maxE ≤ s.size
    · have hne : s.entries ≠ [] := by
        intro hnil
        rw [hnil] at hsize
        simp at hsize
        omega
      obtain ⟨lru, hlru, hmem, hmin, heq⟩ :=
        put_bytes_eq_of_new_evict maxE k v now s hk' hsz hne
      refine ⟨_, heq, ⟨?_, ?_⟩, hle⟩
      · have hlen := length_filter_key_of_mem s.entries lru hmem hnd
        simp only [List.length_append, List.length_cons, List.length_nil]
        omega
      · apply nodup_keys_append_new
        · exact nodup_keys_filter s.entries _ hnd
        · intro hc
          obtain ⟨e, he, hkey⟩ := List.mem_map.mp hc
          exact hknot (List.mem_map.mpr ⟨e, (List.mem_filter.mp he).1, hkey⟩)
    · refine ⟨_, put_bytes_eq_of_new_no_evict maxE k v now s hk' hsz, ⟨?_, ?_⟩,
        show s.size + 1 ≤ maxE by omega⟩
      · simp only [List.length_append, List.length_cons, List.length_nil]
        omega
      · exact nodup_keys_append_new s.entries k now v hnd hknot

theorem WF_emptyCache : WF emptyCache := by
  constructor <;> simp [emptyCache]

theorem runPuts_WF (maxE : Int) (hmax : 0 < maxE) (ops : List (String × List Nat × Int)) :
    ∀ s, WF s → s.size ≤ maxE → ∀ s', runPuts maxE ops s = .ok s' →
      WF s' ∧ s'.size ≤ maxE := by
  induction ops with
  | nil =>
    intro s hWF hle s' h
    simp only [runPuts, Except.ok.injEq] at h
    subst h
    exact ⟨hWF, hle⟩
  | cons op rest ih =>
    intro s hWF hle s' h
    obtain ⟨k, v, t⟩ := op
    obtain ⟨s1, heq, hWF1, hle1⟩ := put_bytes_WF maxE k v t s hWF hle hmax
    rw [runPuts, heq] at h
    exact ih s1 hWF1 hle1 s' h

/-- C3: for every sequence of puts from an empty cache (`0 < max_entries`),
`get_size() <= max_entries` holds after every put; a put of a new key that
finds `SizeCounter >= max_entries` deletes exactly the one entry with the
minimum timestamp before inserting; a put of an already-present key never
evicts (it only replaces that key's own row, leaving the counter unchanged). -/
theorem put_respects_max_entries_and_evicts_lru (maxE : Int) (hmax : 0 < maxE) :
    (∀ ops s', runPuts maxE ops emptyCache = .ok s' →
      DiskLRUCache.get_size s' ≤ maxE)
    ∧ (∀ s k v now, WF s → maxE ≤ s.size → lookupEntry s.entries k = none →
        ∃ lru, DiskLRUCache.minTimestampEntry s.entries = some lru ∧
          lru ∈ s.entries ∧ (∀ e ∈ s.entries, lru.timestamp ≤ e.timestamp) ∧
          DiskLRUCache.put_bytes maxE (.str k) (.bytes v) now s =
            .ok { entries := (s.entries.filter fun e => !(e.key == lru.key)) ++
                    [{ key := k, timestamp := now, value := v }],
                  size := s.size })
    ∧ (∀ s k v now, (lookupEntry s.entries k).isSome = true →
        DiskLRUCache.put_bytes maxE (.str k) (.bytes v) now s =
          .ok { entries := (s.entries.filter fun e => !(e.key == k)) ++
                  [{ key := k, timestamp := now, value := v }],
                size := s.size }) := by
  refine ⟨?_, ?_, ?_⟩
  · intro ops s' h
    exact (runPuts_WF maxE hmax ops emptyCache WF_emptyCache
      (by simp [emptyCache]; omega) s' h).2
  · intro s k v now hWF hsz hk
    have hne : s.entries ≠ [] := by
      intro hnil
      have := hWF.1
      rw [hnil] at this
      simp at this
      omega
    exact put_bytes_eq_of_new_evict maxE k v now s hk hsz hne
  · intro s k v now hk
    exact put_bytes_eq_of_key_exists maxE k v now s hk

theorem put_respects_max_entries_witness :
    DiskLRUCache.get_size
      { entries := [{ key := "b", timestamp := 1, value := [1] }],
        size := 1 } ≤ 1 :=
  (put_respects_max_entries_and_evicts_lru 1 (by decide)).1
    [("a", [0], 0), ("b", [1], 1)] _ rfl

/-- C6: `purge(t)` deletes exactly the entries with timestamp `<= t`, lowers
`get_size()` by exactly the number deleted, is a no-op for a cutoff below
every stored timestamp, and empties the cache for a cutoff at or above every
stored timestamp. -/
theorem purge_removes_exactly_le_cutoff (t : Int) (s : CacheState)
    (hsz : (s.size : Int) = s.entries.length) :
    (DiskLRUCache.purge t s).entries =
        s.entries.filter (fun e => !(e.timestamp ≤ t : Bool))
    ∧ DiskLRUCache.get_size (DiskLRUCache.purge t s) =
        DiskLRUCache.get_size s -
          ((s.entries.filter fun e => (e.timestamp ≤ t : Bool)).length : Int)
    ∧ ((∀ e ∈ s.entries, t < e.timestamp) → DiskLRUCache.purge t s = s)
    ∧ ((∀ e ∈ s.entries, e.timestamp ≤ t) →
        (DiskLRUCache.purge t s).entries = [] ∧
          DiskLRUCache.get_size (DiskLRUCache.purge t s) = 0) := by
  refine ⟨rfl, ?_, ?_, ?_⟩
  · simp only [DiskLRUCache.purge, DiskLRUCache.get_size]
    split <;> omega
  · intro hall
    have h1 : (s.entries.filter fun e => (e.timestamp ≤ t : Bool)) = [] := by
      apply List.filter_eq_nil_iff.mpr
      intro e he
      have := hall e he
      simp
      omega
    have h2 : (s.entries.filter fun e => !(e.timestamp ≤ t : Bool)) = s.entries := by
      apply List.filter_eq_self.mpr
      intro e he
      have := hall e he
      simp
      omega
    cases s
    simp only [DiskLRUCache.purge, h1, h2, List.length_nil]
    simp
  · intro hall
    have h1 : (s.entries.filter fun e => (e.timestamp ≤ t : Bool)) = s.entries := by
      apply List.filter_eq_self.mpr
      intro e he
      simpa using hall e he
    have h2 : (s.entries.filter fun e => !(e.timestamp ≤ t : Bool)) = [] := by
      apply List.filter_eq_nil_iff.mpr
      intro e he
      have := hall e he
      simp
      omega
    constructor
    · exact h2
    · simp only [DiskLRUCache.purge, DiskLRUCache.get_size, h1]
      split <;> omega

theorem purge_removes_exactly_witness :
    (DiskLRUCache.purge 3
        { entries := [{ key := "a", timestamp := 1, value := [1] },
                      { key := "b", timestamp := 5, value := [2] }],
          size := 2 }).entries =
      List.filter (fun e => !(e.timestamp ≤ 3 : Bool))
        [{ key := "a", timestamp := 1, value := [1] },
         { key := "b", timestamp := 5, value := [2] }] :=
  (purge_removes_exactly_le_cutoff 3
    { entries := [{ key := "a", timestamp := 1, value := [1] },
                  { key := "b", timestamp := 5, value := [2] }],
      size := 2 } (by decide)).1

theorem put_bytes_shape (maxE : Int) (k : String) (v : List Nat) (now : Int)
    (s s' : CacheState)
    (h : DiskLRUCache.put_bytes maxE (.str k) (.bytes v) now s = .ok s') :
    ∃ pre, s'.entries = pre ++ [{ key := k, timestamp := now, value := v }] ∧
      lookupEntry pre k = none := by
  simp only [DiskLRUCache.put_bytes] at h
  split at h
  · simp at h
  · rw [Except.ok.injEq] at h
    subst h
    exact ⟨_, rfl, lookupEntry_filter_self _ k⟩

/-- C7: in a single-context sequence, a successful `put(k, v)` immediately
followed by `get(k)` returns `v`: the stored UTF-8 encoding decodes back to
the stored value. -/
theorem get_after_put_returns_value (maxE : Int) (k v : String)
    (now now2 : Int) (s s' : CacheState)
    (h : DiskLRUCache.put maxE (.str k) (.str v) now s = .ok s') :
    ∃ s'', DiskLRUCache.get (.str k) now2 s' = .ok (some v, s'') := by
  have h' : DiskLRUCache.put_bytes maxE (.str k)
      (.bytes (utf8Encode v)) now s = .ok s' := h
  obtain ⟨pre, hent, hpre⟩ := put_bytes_shape maxE k (utf8Encode v) now s s' h'
  have hlook : lookupEntry s'.entries k =
      some { key := k, timestamp := now, value := utf8Encode v } := by
    rw [hent]
    exact lookupEntry_append_new pre _ k rfl hpre
  refine ⟨{ s' with entries := s'.entries.map fun e' =>
    if e'.key = k then { e' with timestamp := now2 } else e' }, ?_⟩
  simp only [DiskLRUCache.get, DiskLRUCache.get_bytes, hlook, utf8Decode_encode]

theorem get_after_put_witness :
    ∃ s'', DiskLRUCache.get (.str "k") 1
        { entries := [{ key := "k", timestamp := 0, value := [118] }],
          size := 1 } = .ok (some "v", s'') :=
  get_after_put_returns_value 4 "k" "v" 0 1 emptyCache
    { entries := [{ key := "k", timestamp := 0, value := [118] }], size := 1 }
    rfl

/-- C8: `delete(k)` never raises on a `str` key, a `get(k)` right after it
returns absent, and `delete` of an absent key is a no-op that leaves the
entries and the size counter unchanged. -/
theorem delete_then_get_absent (s : CacheState) (k : String) (now : Int) :
    (∃ s', DiskLRUCache.delete (.str k) s = .ok s' ∧
      DiskLRUCache.get (.str k) now s' = .ok (none, s'))
    ∧ (lookupEntry s.entries k = none → DiskLRUCache.delete (.str k) s = .ok s) := by
  constructor
  · by_cases hk : (lookupEntry s.entries k).isSome = true
    · refine ⟨{ entries := s.entries.filter (fun e => !(e.key == k)),
                size := s.size - 1 }, ?_, ?_⟩
      · simp [DiskLRUCache.delete, hk]
      · simp only [DiskLRUCache.get, DiskLRUCache.get_bytes,
          lookupEntry_filter_self]
    · have hk' : lookupEntry s.entries k = none := by
        cases h : lookupEntry s.entries k
        · rfl
        · exact absurd (by simp [h]) hk
      refine ⟨s, (by simp [DiskLRUCache.delete, hk']), ?_⟩
      simp only [DiskLRUCache.get, DiskLRUCache.get_bytes, hk']
  · intro hk
    simp [DiskLRUCache.delete, hk]

theorem delete_then_get_witness :
    DiskLRUCache.delete (.str "a") emptyCache = .ok emptyCache :=
  (delete_then_get_absent emptyCache "a" 0).2 rfl

/-- C9: the membership check (`in`, `__contains__`) returns whether the key
has an entry and leaves the state — every entry's value and timestamp and
the size counter — exactly unchanged, while `get` on the same shape of state
does rewrite the entry's timestamp. -/
theorem contains_does_not_mutate (s : CacheState) (k : String) :
    DiskLRUCache.contains (.str k) s =
      .ok ((lookupEntry s.entries k).isSome, s)
    ∧ DiskLRUCache.get (.str "a") 1
        { entries := [{ key := "a", timestamp := 0, value := [97] }],
          size := 1 } =
      .ok (some "a",
        { entries := [{ key := "a", timestamp := 1, value := [97] }],
          size := 1 }) := by
  constructor
  · rfl
  · rfl

/-- C10: `delete` has no `isinstance` guard — a non-`str` key does not raise
`TypeError` and is a no-op on the state — while `get`, `get_bytes`, `put`,
`put_bytes`, the membership check and `compare_and_swap` all raise
`TypeError` for a non-`str` key. -/
theorem delete_skips_type_check (k : PyVal) (hk : k.isStr = false)
    (s : CacheState) (v : PyVal) (pv nv : Option String) (maxE now : Int) :
    DiskLRUCache.delete k s = .ok s
    ∧ DiskLRUCache.get k now s =
        .error (.typeError ("key must be str, not " ++ k.typeName))
    ∧ DiskLRUCache.get_bytes k now s =
        .error (.typeError ("key must be str, not " ++ k.typeName))
    ∧ DiskLRUCache.put maxE k v now s =
        .error (.typeError ("key must be str, not " ++ k.typeName))
    ∧ DiskLRUCache.put_bytes maxE k v now s =
        .error (.typeError ("key must be str, not " ++ k.typeName))
    ∧ DiskLRUCache.contains k s =
        .error (.typeError ("key must be str, not " ++ k.typeName))
    ∧ DiskLRUCache.compare_and_swap k pv nv now s =
        .error (.typeError ("key must be str, not " ++ k.typeName)) := by
  cases k with
  | str s' => simp [PyVal.isStr] at hk
  | bytes b =>
    refine ⟨rfl, rfl, rfl, ?_, rfl, rfl, rfl⟩
    cases v <;> rfl
  | int n =>
    refine ⟨rfl, rfl, rfl, ?_, rfl, rfl, rfl⟩
    cases v <;> rfl
  | pyNone =>
    refine ⟨rfl, rfl, rfl, ?_, rfl, rfl, rfl⟩
    cases v <;> rfl

theorem delete_skips_type_check_witness :
    DiskLRUCache.delete (.int 5) emptyCache = .ok emptyCache :=
  (delete_skips_type_check (.int 5) rfl emptyCache (.str "x") none none 4 0).1

/-- C1 (counter-evidence): `compare_and_swap` on an empty cache with a
non-absent expected value `"a"` — a mismatch, since the key is absent — both
mutates the state (it inserts the new value `"b"`, bytes `[98]`) and returns
`succeeded=true` with no actual value, because success is computed from
`cursor.arraysize` (always `1`) instead of `cursor.rowcount`. -/
theorem cas_mismatch_mutates_and_reports_success :
    DiskLRUCache.compare_and_swap (.str "k") (some "a") (some "b") 0
      emptyCache =
    .ok ((true, none),
      { entries := [{ key := "k", timestamp := 0, value := [98] }],
        size := 0 }) := rfl

/-- C2 (counter-evidence): the same call leaves `SizeCounter = 0` while one
entry is live — `compare_and_swap` increments the counter only when
`prev_val is None`, so this insert breaks `SizeCounter == COUNT(Entry)`
even though the starting state satisfied it. -/
theorem cas_breaks_size_counter_invariant :
    WF emptyCache
    ∧ DiskLRUCache.compare_and_swap (.str "c") (some "x") (some "y") 3
        emptyCache =
      .ok ((true, none),
        { entries := [{ key := "c", timestamp := 3, value := [121] }],
          size := 0 })
    ∧ ¬ WF { entries := [{ key := "c", timestamp := 3, value := [121] }],
             size := 0 } := by
  refine ⟨WF_emptyCache, rfl, ?_⟩
  intro h
  have := h.1
  simp at this

/-- C4 (counter-evidence): after `close()` the `closed` flag is set and the
pool is empty, yet a subsequent `get` silently creates a fresh session and
returns the stored value, and `get_size` answers normally — no
NotInitialized/Closed failure occurs anywhere. -/
theorem ops_after_close_succeed :
    DiskLRU.put 0 (.str "k") (.str "v") 0 (DiskLRU.init 4 50) =
      .ok { maxEntries := 4, maxConnections := 50, closed := false,
            connections := [{ threadId := 0, lastAccess := 0 }],
            db := { entries := [{ key := "k", timestamp := 0, value := [118] }],
                    size := 1 } }
    ∧ DiskLRU.close
        { maxEntries := 4, maxConnections := 50, closed := false,
          connections := [{ threadId := 0, lastAccess := 0 }],
          db := { entries := [{ key := "k", timestamp := 0, value := [118] }],
                  size := 1 } } =
      { maxEntries := 4, maxConnections := 50, closed := true,
        connections := [],
        db := { entries := [{ key := "k", timestamp := 0, value := [118] }],
                size := 1 } }
    ∧ DiskLRU.get 0 (.str "k") 1
        { maxEntries := 4, maxConnections := 50, closed := true,
          connections := [],
          db := { entries := [{ key := "k", timestamp := 0, value := [118] }],
                  size := 1 } } =
      .ok (some "v",
        { maxEntries := 4, maxConnections := 50, closed := true,
          connections := [{ threadId := 0, lastAccess := 1 }],
          db := { entries := [{ key := "k", timestamp := 1, value := [118] }],
                  size := 1 } })
    ∧ DiskLRU.get_size 0 2
        { maxEntries := 4, maxConnections := 50, closed := true,
          connections := [],
          db := { entries := [{ key := "k", timestamp := 0, value := [118] }],
                  size := 1 } } =
      (1, { maxEntries := 4, maxConnections := 50, closed := true,
            connections := [{ threadId := 0, lastAccess := 2 }],
            db := { entries := [{ key := "k", timestamp := 0, value := [118] }],
                    size := 1 } }) :=
  ⟨rfl, rfl, rfl, rfl⟩

/-- C5: with `max_entries = 4`, after `put key1..key4` (at increasing times),
`get key1` (refreshing it), then `put key5`, the evicted key is `key2` and
`key1`, `key3`, `key4`, `key5` are all present. -/
theorem lru_scenario_evicts_key2 :
    (do
      let s1 ← DiskLRUCache.put 4 (.str "key1") (.str "value1") 1 emptyCache
      let s2 ← DiskLRUCache.put 4 (.str "key2") (.str "value2") 2 s1
      let s3 ← DiskLRUCache.put 4 (.str "key3") (.str "value3") 3 s2
      let s4 ← DiskLRUCache.put 4 (.str "key4") (.str "value4") 4 s3
      let (_, s5) ← DiskLRUCache.get (.str "key1") 5 s4
      let s6 ← DiskLRUCache.put 4 (.str "key5") (.str "value5") 6 s5
      pure ((lookupEntry s6.entries "key2").isSome,
        (lookupEntry s6.entries "key1").isSome,
        (lookupEntry s6.entries "key3").isSome,
        (lookupEntry s6.entries "key4").isSome,
        (lookupEntry s6.entries "key5").isSome,
        DiskLRUCache.get_size s6)) =
    .ok (false, true, true, true, true, 4) := rfl
